import Mathlib

set_option maxRecDepth 10000
set_option maxHeartbeats 4000000
/-!
Verification of the query-resolution pipeline of a question/answer chatbot
(source: chatbot_app.py).  The program normalizes a query through a synonym
table, then tries an exact-match stage, a keyword stage and a fuzzy stage
over an ordered table of (question, answer) rows.

Modelling conventions:
* Python strings are modelled as Lean String (lists of characters); the
  character classes (str.lower, the regex class for word characters) are
  modelled at their ASCII meaning, which is what every string literal in the
  program and in the concrete inputs below uses.
* pandas dataframe rows are modelled as a List Row in load order; boolean
  mask selection followed by .iloc[0] is List.find?.
* fuzzywuzzy.process.extractOne and fuzz.token_set_ratio are modelled after
  the fuzzywuzzy implementation: extractOne full-processes the query, scores
  every choice, and keeps the first choice attaining the maximal score;
  token_set_ratio full-processes both sides, splits them into token sets and
  takes the maximum of three pairwise similarity values.  The pairwise
  similarity is the Levenshtein ratio 2*lcs/(len1+len2) scaled to 0..100 and
  rounded half-to-even (Python round), computed here in exact arithmetic.
* A Python exception (unpacking None from extractOne on an empty candidate
  list) is modelled by the value none of the Option result of get_answer.
-/

namespace Chatbot

/-- ASCII lowercasing of a string, modelling Python str.lower on the ASCII
strings processed by the program. -/
def llower (s : String) : String := ⟨s.data.map Char.toLower⟩

/-- Word-character class of the regexes in the program: letters, digits and
the underscore (ASCII reading of the regex class). -/
def isWordChar (c : Char) : Bool := c.isAlphanum || c == '_'

/-- One fueled step list for Python str.replace: scan left to right, replace
each non-overlapping occurrence of pat by rep.  Fuel bounds the recursion;
it is instantiated with the length of the scanned list, which is always
sufficient. -/
def replaceFuel (pat rep : List Char) : Nat → List Char → List Char
  | 0, s => s
  | _ + 1, [] => []
  | fuel + 1, c :: cs =>
    if pat.isPrefixOf (c :: cs) && !pat.isEmpty then
      rep ++ replaceFuel pat rep fuel ((c :: cs).drop pat.length)
    else
      c :: replaceFuel pat rep fuel cs

/-- Python s.replace(pat, rep) for the non-empty patterns the program uses:
replace every occurrence of pat in s by rep, scanning left to right without
rescanning replaced text. -/
def replaceAll (s pat rep : String) : String :=
  ⟨replaceFuel pat.data rep.data s.data.length s.data⟩

/-- The synonym_dict of chatbot_app.py, in its (insertion-ordered) iteration
order: each entry is a canonical term together with its list of variants. -/
def synonym_dict : List (String × List String) :=
  [("ai", ["artificial intelligence", "machine intelligence", "algorithmic intelligence"]),
   ("artificial intelligence", ["ai", "machine intelligence", "algorithmic intelligence"]),
   ("machine learning", ["ml", "statistical learning", "predictive analytics"]),
   ("ml", ["machine learning"]),
   ("robotics", ["robot engineering", "robot science"]),
   ("robot", ["automaton", "machine"]),
   ("computer vision", ["vision systems", "image recognition"]),
   ("natural language processing", ["nlp", "language understanding"]),
   ("nlp", ["natural language processing"]),
   ("technology", ["tech", "innovation", "engineering", "machinery", "tools"]),
   ("engineering", ["technology", "design", "construction"]),
   ("sensor", ["detector", "probe"]),
   ("actuator", ["motor", "driver"]),
   ("big data", ["large datasets", "massive data"]),
   ("dataset", ["data collection", "data set"]),
   ("deep learning", ["deep neural networks"]),
   ("neural network", ["neural net", "nn"]),
   ("nn", ["neural network"]),
   ("cobot", ["collaborative robot"]),
   ("collaborative robot", ["cobot"]),
   ("swarming robotics", ["robot swarms", "swarm robotics"])]

/-- normalize_query of chatbot_app.py: lowercase the query, then for every
entry of the synonym table in iteration order and every variant of the entry
in list order, replace every substring occurrence of the (lowercased)
variant by the (lowercased) canonical term. -/
def normalize_query (query : String) (syn : List (String × List String)) : String :=
  syn.foldl (fun q e => e.2.foldl (fun q2 s => replaceAll q2 (llower s) (llower e.1)) q)
    (llower query)

/-- Modelled from the spec: flatten the synonym table to its ordered list of
(variant, canonical) substitution rules. -/
def synPairs (tbl : List (String × List String)) : List (String × String) :=
  tbl.foldr (fun e acc => e.2.map (fun v => (v, e.1)) ++ acc) []

/-- Modelled from the spec: lowercase the input query, then apply each
substitution rule (variant, canonical) of the table, in table iteration
order and variant list order, as a plain replace-every-substring-occurrence
pass. -/
def normalizeSpec (query : String) (tbl : List (String × List String)) : String :=
  (synPairs tbl).foldl (fun q p => replaceAll q (llower p.1) (llower p.2)) (llower query)

/-- Maximal runs of word characters in accumulator style; models
re.findall of a word-token regex. -/
def tokensAux : List Char → List Char → List String
  | cur, [] => if cur.isEmpty then [] else [⟨cur.reverse⟩]
  | cur, c :: cs =>
    if isWordChar c then tokensAux (c :: cur) cs
    else if cur.isEmpty then tokensAux [] cs
    else ⟨cur.reverse⟩ :: tokensAux [] cs

/-- Tokens of a string: the maximal runs of word characters, left to right.
Models re.findall of a word-token regex over the normalized query. -/
def wordTokens (s : String) : List String := tokensAux [] s.data

/-- Stable descending sort of the tokens by character length; models Python
sorted with the length key and reverse order (a stable sort). -/
def sortLenDesc (ts : List String) : List String :=
  List.insertionSort (fun a b => b.length ≤ a.length) ts

/-- Test used for boundaries of the keyword regex: an Option holds the
character adjacent to a candidate occurrence, none at the ends of the
string. -/
def notWordB : Option Char → Bool
  | none => true
  | some c => !(isWordChar c)

/-- Case-insensitive prefix test on character lists (both sides are
compared lowercased), modelling the IGNORECASE regex flag. -/
def caselessStarts : List Char → List Char → Bool
  | [], _ => true
  | _ :: _, [] => false
  | a :: as, b :: bs => (a.toLower == b.toLower) && caselessStarts as bs

/-- Scan of the keyword regex: at every position of the text, try a
case-insensitive occurrence of kw bounded on both sides by a non-word
character or the end of the string; prev is the character before the
current position. -/
def wwScan (kw : List Char) : Option Char → List Char → Bool
  | prev, [] => notWordB prev && caselessStarts kw []
  | prev, c :: cs =>
    (notWordB prev && caselessStarts kw (c :: cs) &&
      notWordB (((c :: cs).drop kw.length).head?)) ||
    wwScan kw (some c) cs

/-- Whole-word, case-insensitive occurrence of the keyword kw in text:
models re.search of the escaped keyword wrapped in word boundaries with the
IGNORECASE flag, for the word-character keywords the program builds. -/
def wholeWord (kw : String) (text : String) : Bool := wwScan kw.data none text.data

/-- Plain (case-sensitive) substring occurrence test. -/
def hasSubstrL (pat : List Char) : List Char → Bool
  | [] => pat.isEmpty
  | c :: cs => pat.isPrefixOf (c :: cs) || hasSubstrL pat cs

/-- Substring occurrence test on strings. -/
def hasSubstr (pat s : String) : Bool := hasSubstrL pat.data s.data

/-- Whitespace stripping at both ends of a character list; models Python
str.strip with no argument. -/
def stripWs (l : List Char) : List Char :=
  ((l.dropWhile Char.isWhitespace).reverse.dropWhile Char.isWhitespace).reverse

/-- Python str.strip on strings. -/
def strip (s : String) : String := ⟨stripWs s.data⟩

/-- full_process of fuzzywuzzy.utils: replace every non word character by a
space, lowercase, and strip. -/
def fullProcess (s : String) : String :=
  strip ⟨s.data.map (fun c => if isWordChar c then c.toLower else ' ')⟩

/-- Whitespace splitting in accumulator style; models Python str.split with
no argument (runs of whitespace separate, no empty pieces). -/
def splitWsAux : List Char → List Char → List String
  | cur, [] => if cur.isEmpty then [] else [⟨cur.reverse⟩]
  | cur, c :: cs =>
    if c.isWhitespace then
      if cur.isEmpty then splitWsAux [] cs else ⟨cur.reverse⟩ :: splitWsAux [] cs
    else splitWsAux (c :: cur) cs

/-- Python s.split() on strings. -/
def splitWs (s : String) : List String := splitWsAux [] s.data

/-- Duplicate removal keeping first occurrences; models building a Python
set from a token list (the set is sorted before use, so only the underlying
collection of elements matters). -/
def dedupF : List String → List String
  | [] => []
  | x :: xs => x :: (dedupF xs).filter (fun y => !(y == x))

/-- Lexicographic comparison of character lists by code point; models the
Python string order used by sorted. -/
def charListLt : List Char → List Char → Bool
  | [], [] => false
  | [], _ :: _ => true
  | _ :: _, [] => false
  | a :: as, b :: bs => if a < b then true else if b < a then false else charListLt as bs

/-- Boolean less-or-equal on strings derived from the lexicographic
comparison. -/
def strLeB (a b : String) : Bool := !(charListLt b.data a.data)

/-- Ascending lexicographic sort of a list of strings; models Python
sorted on a set of tokens. -/
def sortStrs (l : List String) : List String :=
  List.insertionSort (fun a b => strLeB a b = true) l

/-- Space-join of a list of strings; models the Python join with a single
space separator. -/
def joinSp : List String → String
  | [] => ""
  | [x] => x
  | x :: y :: rest => x ++ " " ++ joinSp (y :: rest)

/-- Longest-common-subsequence row update: given the previous dynamic
programming row over the prefixes of bs and the value cur already computed
for the current row, produce the rest of the current row for character c. -/
def lcsRowAux (c : Char) : List Char → List Nat → Nat → List Nat
  | [], _, _ => []
  | b :: bs, p0 :: rest, cur =>
    let p1 := rest.headD 0
    let v := if c == b then p0 + 1 else max cur p1
    v :: lcsRowAux c bs rest v
  | _ :: _, [], _ => []

/-- Longest-common-subsequence table, row by row over the characters of the
first list. -/
def lcsRows (bs : List Char) : List Char → List Nat → List Nat
  | [], row => row
  | c :: cs, row => lcsRows bs cs (0 :: lcsRowAux c bs row 0)

/-- Length of a longest common subsequence of two character lists. -/
def lcsLen (a b : List Char) : Nat :=
  (lcsRows b a (List.replicate (b.length + 1) 0)).getLastD 0

/-- Rounding of the rational num/den to the nearest integer, halves to even;
models Python round (and the int conversion of fuzzywuzzy.utils) applied to
a non-negative value. -/
def intround (num den : Nat) : Nat :=
  let q := num / den
  let r := num % den
  if 2 * r < den then q
  else if den < 2 * r then q + 1
  else if q % 2 == 0 then q else q + 1

/-- Similarity of two strings on the 0..100 scale: the Levenshtein ratio
2*lcs/(len1+len2) scaled by 100, in exact arithmetic; models the pairwise
scorer fuzz.ratio used inside fuzz.token_set_ratio. -/
def ratioScore (s1 s2 : String) : Nat :=
  if s1.data.length + s2.data.length == 0 then 100
  else intround (200 * lcsLen s1.data s2.data) (s1.data.length + s2.data.length)

/-- token_set_ratio of fuzzywuzzy.fuzz: full-process both strings (empty
processed input scores 0), split into token sets, sort the intersection and
the two differences, and take the maximum of the three pairwise similarity
values between the joined intersection and the two combined strings. -/
def tokenSetScore (s1 s2 : String) : Nat :=
  let p1 := fullProcess s1
  let p2 := fullProcess s2
  if p1.data.isEmpty then 0
  else if p2.data.isEmpty then 0
  else
    let w1 := dedupF (splitWs p1)
    let w2 := dedupF (splitWs p2)
    let inter := sortStrs (w1.filter (fun t => w2.contains t))
    let d12 := sortStrs (w1.filter (fun t => !(w2.contains t)))
    let d21 := sortStrs (w2.filter (fun t => !(w1.contains t)))
    let sect := strip (joinSp inter)
    let c12 := strip (joinSp inter ++ " " ++ joinSp d12)
    let c21 := strip (joinSp inter ++ " " ++ joinSp d21)
    max (max (ratioScore sect c12) (ratioScore sect c21)) (ratioScore c12 c21)

/-- extractOne of fuzzywuzzy.process with the token_set_ratio scorer: on an
empty candidate list the result is none (the Python call returns None);
otherwise full-process the query once, score every candidate, and keep the
first candidate attaining the maximal score together with that score. -/
def extractOne (query : String) (choices : List String) : Option (String × Nat) :=
  match choices with
  | [] => none
  | c :: cs =>
    let pq := fullProcess query
    some (cs.foldl
      (fun best ch => if best.2 < tokenSetScore pq ch then (ch, tokenSetScore pq ch) else best)
      (c, tokenSetScore pq c))

/-- One row of the loaded question/answer table. -/
structure Row where
  question : String
  answer : String
deriving DecidableEq

/-- Terminal fallback message of get_answer. -/
def fallbackMsg : String :=
  "I'm sorry, I couldn't find a relevant answer. Could you please rephrase your question?"

/-- Exact-match stage of get_answer: the first row whose lowercased question
equals the lowercased normalized query (boolean mask plus .iloc[0] on the
dataframe). -/
def exactMatch? (query_lower : String) (df : List Row) : Option Row :=
  df.find? (fun r => llower r.question == llower query_lower)

/-- Keyword stage of get_answer: if the token list of the normalized query
is non-empty, try the tokens in stable descending-length order; for each
token, take the first row whose raw question contains the token as a
whole word, case-insensitively; the first hit over the whole token loop
wins. -/
def keywordMatch? (query_lower : String) (df : List Row) : Option String :=
  let keywords := wordTokens query_lower
  if keywords.isEmpty then none
  else
    (sortLenDesc keywords).findSome?
      (fun kw => (df.find? (fun r => wholeWord kw r.question)).map (fun r => r.answer))

/-- Fuzzy stage of get_answer: extractOne over the question list; none
models the TypeError raised when the Python code unpacks the None returned
on an empty candidate list.  On a best score of at least 70 the answer of
the first row whose question equals the best-matching question string is
returned, otherwise the terminal fallback message. -/
def fuzzyStage (query_lower : String) (df : List Row) : Option String :=
  match extractOne query_lower (df.map (fun r => r.question)) with
  | none => none
  | some (bm, sc) =>
    if 70 ≤ sc then (df.find? (fun r => r.question == bm)).map (fun r => r.answer)
    else some fallbackMsg

/-- get_answer of chatbot_app.py: normalize the query, then run the exact,
keyword and fuzzy stages in order, first success winning.  The returned
Option is some answer-or-fallback string in every non-raising execution and
none where the Python code raises. -/
def get_answer (query : String) (df : List Row) : Option String :=
  match exactMatch? (normalize_query query synonym_dict) df with
  | some r => some r.answer
  | none =>
    match keywordMatch? (normalize_query query synonym_dict) df with
    | some a => some a
    | none => fuzzyStage (normalize_query query synonym_dict) df
section Helpers

/-- Pending accumulator content always produces a token. -/
theorem tokensAux_ne_nil : ∀ (l : List Char) (cur : List Char), cur ≠ [] → tokensAux cur l ≠ []
  | [], cur, h => by
    cases cur with
    | nil => exact absurd rfl h
    | cons a as => simp [tokensAux]
  | c :: cs, cur, h => by
    by_cases hw : isWordChar c
    · simpa [tokensAux, hw] using tokensAux_ne_nil cs (c :: cur) (by simp)
    · cases cur with
      | nil => exact absurd rfl h
      | cons a as => simp [tokensAux, hw]

/-- A string with an empty token list has no word characters. -/
theorem no_word_of_tokensAux_nil : ∀ (l : List Char), tokensAux [] l = [] →
    ∀ c ∈ l, isWordChar c = false
  | [], _, c, hc => by cases hc
  | c :: cs, h, x, hx => by
    by_cases hw : isWordChar c
    · rw [tokensAux, if_pos hw] at h
      exact absurd h (tokensAux_ne_nil cs [c] (by simp))
    · rw [tokensAux, if_neg hw] at h
      simp only [List.isEmpty_nil, if_true] at h
      rcases List.mem_cons.1 hx with rfl | hx2
      · simpa using hw
      · exact no_word_of_tokensAux_nil cs h x hx2

/-- Stripping a list of spaces yields the empty list. -/
theorem stripWs_spaces (l : List Char) (h : ∀ c ∈ l, c = ' ') : stripWs l = [] := by
  have hd : l.dropWhile Char.isWhitespace = [] :=
    List.dropWhile_eq_nil_iff.2 (fun c hc => by rw [h c hc]; rfl)
  unfold stripWs
  rw [hd]
  rfl

/-- A query with no word tokens full-processes to the empty string. -/
theorem fullProcess_data_nil (s : String) (h : wordTokens s = []) : (fullProcess s).data = [] := by
  have hw : ∀ c ∈ s.data, isWordChar c = false := no_word_of_tokensAux_nil s.data h
  show stripWs (s.data.map (fun c => if isWordChar c then c.toLower else ' ')) = []
  apply stripWs_spaces
  intro x hx
  rcases List.mem_map.1 hx with ⟨c, hc, rfl⟩
  rw [hw c hc]
  rfl

/-- The token-set score of an empty first string is zero. -/
theorem tokenSetScore_left_nil (s ch : String) (h : s.data = []) : tokenSetScore s ch = 0 := by
  obtain ⟨d⟩ := s
  simp only at h
  subst h
  rfl

/-- Folding the running-best update when every candidate scores zero keeps
the initial best. -/
theorem foldl_best_zero (pq : String) (hz : ∀ x, tokenSetScore pq x = 0) :
    ∀ (cs : List String) (b : String × Nat),
      cs.foldl
        (fun best ch => if best.2 < tokenSetScore pq ch then (ch, tokenSetScore pq ch) else best)
        b = b
  | [], b => rfl
  | x :: cs, b => by
    rw [List.foldl_cons]
    rw [show (if b.2 < tokenSetScore pq x then (x, tokenSetScore pq x) else b) = b from by
      rw [hz x]; exact if_neg (Nat.not_lt_zero b.2)]
    exact foldl_best_zero pq hz cs b

/-- extractOne on a query that full-processes to nothing returns the first
candidate with score zero. -/
theorem extractOne_processed_nil (q : String) (h : (fullProcess q).data = [])
    (c : String) (cs : List String) : extractOne q (c :: cs) = some (c, 0) := by
  have hz : ∀ x, tokenSetScore (fullProcess q) x = 0 :=
    fun x => tokenSetScore_left_nil (fullProcess q) x h
  show some (cs.foldl
      (fun best ch =>
        if best.2 < tokenSetScore (fullProcess q) ch then (ch, tokenSetScore (fullProcess q) ch)
        else best)
      (c, tokenSetScore (fullProcess q) c)) = some (c, 0)
  rw [hz c, foldl_best_zero (fullProcess q) hz cs (c, 0)]

/-- The running best of the extractOne fold is the initial candidate or one
of the folded candidates. -/
theorem foldl_fst_mem (pq : String) :
    ∀ (cs : List String) (b : String × Nat),
      (cs.foldl
        (fun best ch => if best.2 < tokenSetScore pq ch then (ch, tokenSetScore pq ch) else best)
        b).1 = b.1 ∨
      (cs.foldl
        (fun best ch => if best.2 < tokenSetScore pq ch then (ch, tokenSetScore pq ch) else best)
        b).1 ∈ cs
  | [], b => Or.inl rfl
  | x :: cs, b => by
    rw [List.foldl_cons]
    by_cases hc : b.2 < tokenSetScore pq x
    · rw [if_pos hc]
      rcases foldl_fst_mem pq cs (x, tokenSetScore pq x) with h | h
      · exact Or.inr (List.mem_cons.2 (Or.inl h))
      · exact Or.inr (List.mem_cons_of_mem x h)
    · rw [if_neg hc]
      rcases foldl_fst_mem pq cs b with h | h
      · exact Or.inl h
      · exact Or.inr (List.mem_cons_of_mem x h)

/-- The best match returned by extractOne is one of the candidates. -/
theorem extractOne_mem {q c : String} {cs : List String} {p : String × Nat}
    (h : extractOne q (c :: cs) = some p) : p.1 ∈ c :: cs := by
  have hp : p = cs.foldl
      (fun best ch =>
        if best.2 < tokenSetScore (fullProcess q) ch then (ch, tokenSetScore (fullProcess q) ch)
        else best)
      (c, tokenSetScore (fullProcess q) c) := (Option.some.inj h).symm
  rw [hp]
  rcases foldl_fst_mem (fullProcess q) cs (c, tokenSetScore (fullProcess q) c) with h1 | h1
  · exact h1 ▸ List.mem_cons_self c cs
  · exact List.mem_cons_of_mem c h1

/-- A best-match string that occurs among the questions is found by the
question-equality lookup. -/
theorem find?_question_exists (df : List Row) (bm : String)
    (h : bm ∈ df.map (fun r => r.question)) :
    ∃ r, df.find? (fun row => row.question == bm) = some r := by
  rcases List.mem_map.1 h with ⟨r, hr, hq⟩
  have : (List.find? (fun row => row.question == bm) df).isSome :=
    List.find?_isSome.2 ⟨r, hr, by rw [hq]; exact beq_self_eq_true bm⟩
  exact Option.isSome_iff_exists.1 this

/-- Unfolding of get_answer at a successful exact stage. -/
theorem get_answer_of_exact {q : String} {df : List Row} {r : Row}
    (h : exactMatch? (normalize_query q synonym_dict) df = some r) :
    get_answer q df = some r.answer := by
  unfold get_answer
  rw [h]

/-- Unfolding of get_answer at a successful keyword stage. -/
theorem get_answer_of_keyword {q : String} {df : List Row} {a : String}
    (h1 : exactMatch? (normalize_query q synonym_dict) df = none)
    (h2 : keywordMatch? (normalize_query q synonym_dict) df = some a) :
    get_answer q df = some a := by
  unfold get_answer
  rw [h1, h2]

/-- Unfolding of get_answer to the fuzzy stage when the first two stages
find nothing. -/
theorem get_answer_fuzzy_eq {q : String} {df : List Row}
    (h1 : exactMatch? (normalize_query q synonym_dict) df = none)
    (h2 : keywordMatch? (normalize_query q synonym_dict) df = none) :
    get_answer q df = fuzzyStage (normalize_query q synonym_dict) df := by
  unfold get_answer
  rw [h1, h2]

end Helpers
section Helpers2

/-- get_answer on a non-empty table always returns a string, and that string
is a row answer or the terminal fallback message. -/
theorem get_answer_cases (q : String) (df : List Row) (h : df ≠ []) :
    ∃ s, get_answer q df = some s ∧
      (s = fallbackMsg ∨ ∃ r, r ∈ df ∧ s = r.answer) := by
  cases hex : exactMatch? (normalize_query q synonym_dict) df with
  | some r =>
    exact ⟨r.answer, get_answer_of_exact hex,
      Or.inr ⟨r, List.mem_of_find?_eq_some hex, rfl⟩⟩
  | none =>
    cases hkw : keywordMatch? (normalize_query q synonym_dict) df with
    | some a =>
      refine ⟨a, get_answer_of_keyword hex hkw, Or.inr ?_⟩
      simp only [keywordMatch?] at hkw
      split at hkw
      · cases hkw
      · rcases List.exists_of_findSome?_eq_some hkw with ⟨kw, _, hf⟩
        rcases Option.map_eq_some'.1 hf with ⟨r, hfind, ha⟩
        exact ⟨r, List.mem_of_find?_eq_some hfind, ha.symm⟩
    | none =>
      cases df with
      | nil => exact absurd rfl h
      | cons r0 df' =>
        rw [get_answer_fuzzy_eq hex hkw]
        have hmap : (r0 :: df').map (fun r => r.question) =
            r0.question :: df'.map (fun r => r.question) := rfl
        obtain ⟨p, hp⟩ : ∃ p, extractOne (normalize_query q synonym_dict)
            ((r0 :: df').map (fun r => r.question)) = some p := ⟨_, rfl⟩
        have hbm : p.1 ∈ (r0 :: df').map (fun r => r.question) := by
          rw [hmap] at hp ⊢
          exact extractOne_mem hp
        unfold fuzzyStage
        rw [hp]
        obtain ⟨bm, sc⟩ := p
        by_cases h70 : 70 ≤ sc
        · rcases find?_question_exists (r0 :: df') bm hbm with ⟨r1, hr1⟩
          have hv : (if 70 ≤ sc then
              Option.map (fun r => r.answer)
                (List.find? (fun r => r.question == bm) (r0 :: df'))
              else some fallbackMsg) = some r1.answer := by
            rw [if_pos h70, hr1]
            rfl
          exact ⟨r1.answer, hv, Or.inr ⟨r1, List.mem_of_find?_eq_some hr1, rfl⟩⟩
        · have hv : (if 70 ≤ sc then
              Option.map (fun r => r.answer)
                (List.find? (fun r => r.question == bm) (r0 :: df'))
              else some fallbackMsg) = some fallbackMsg := if_neg h70
          exact ⟨fallbackMsg, hv, Or.inl rfl⟩

/-- get_answer on the zero-row table reaches the fuzzy stage and the
modelled None-unpacking failure. -/
theorem get_answer_nil (q : String) : get_answer q [] = none := by
  have h1 : exactMatch? (normalize_query q synonym_dict) [] = none := rfl
  have h2 : keywordMatch? (normalize_query q synonym_dict) [] = none := by
    simp only [keywordMatch?]
    split
    · rfl
    · simp [List.findSome?_eq_none_iff, List.find?]
  rw [get_answer_fuzzy_eq h1 h2]
  rfl

/-- Ordered insertion of an element of the given length prepends it to the
filtered-by-that-length part of the list. -/
theorem filter_orderedInsert_pos (n : Nat) (a : String) (h : a.length = n) :
    ∀ l : List String,
      (List.orderedInsert (fun x y => y.length ≤ x.length) a l).filter
          (fun t => t.length == n) =
        a :: l.filter (fun t => t.length == n)
  | [] => by simp [List.orderedInsert, h]
  | b :: l => by
    rw [List.orderedInsert]
    by_cases hr : b.length ≤ a.length
    · rw [if_pos hr, List.filter_cons, List.filter_cons]
      simp [h]
    · rw [if_neg hr]
      have hb : (b.length == n) = false := by
        subst h
        exact beq_eq_false_iff_ne.2 (fun he => hr (Nat.le_of_eq he))
      rw [List.filter_cons, List.filter_cons, hb]
      simp only [Bool.false_eq_true, if_false]
      exact filter_orderedInsert_pos n a h l

/-- Ordered insertion of an element of a different length does not change
the filtered-by-that-length part of the list. -/
theorem filter_orderedInsert_neg (n : Nat) (a : String) (h : a.length ≠ n) :
    ∀ l : List String,
      (List.orderedInsert (fun x y => y.length ≤ x.length) a l).filter
          (fun t => t.length == n) =
        l.filter (fun t => t.length == n)
  | [] => by simp [List.orderedInsert, h]
  | b :: l => by
    rw [List.orderedInsert]
    by_cases hr : b.length ≤ a.length
    · rw [if_pos hr, List.filter_cons, List.filter_cons]
      simp [h]
    · rw [if_neg hr, List.filter_cons, List.filter_cons]
      rw [filter_orderedInsert_neg n a h l]

/-- Stability of the descending-length sort: tokens of any fixed length
appear in the sorted list exactly in their original relative order. -/
theorem sortLenDesc_filter (ts : List String) (n : Nat) :
    (sortLenDesc ts).filter (fun t => t.length == n) =
      ts.filter (fun t => t.length == n) := by
  induction ts with
  | nil => rfl
  | cons a ts ih =>
    show (List.orderedInsert (fun x y => y.length ≤ x.length) a
        (List.insertionSort (fun x y => y.length ≤ x.length) ts)).filter
        (fun t => t.length == n) = _
    by_cases h : a.length = n
    · rw [filter_orderedInsert_pos n a h, List.filter_cons]
      simp only [h, beq_self_eq_true, if_true]
      exact congrArg (List.cons a) ih
    · rw [filter_orderedInsert_neg n a h, List.filter_cons]
      have hb : (a.length == n) = false := beq_eq_false_iff_ne.2 h
      rw [hb]
      simpa using ih

end Helpers2
section Claims

/-- C6 helper: the nested synonym fold equals the fold over the flattened
substitution-rule list, for any initial string. -/
theorem normalize_fold_eq : ∀ (tbl : List (String × List String)) (q0 : String),
    tbl.foldl (fun q e => e.2.foldl (fun q2 s => replaceAll q2 (llower s) (llower e.1)) q) q0 =
      (synPairs tbl).foldl (fun q p => replaceAll q (llower p.1) (llower p.2)) q0
  | [], _ => rfl
  | e :: t, q0 => by
    rw [List.foldl_cons]
    have hsp : synPairs (e :: t) = e.2.map (fun v => (v, e.1)) ++ synPairs t := rfl
    rw [hsp, List.foldl_append, List.foldl_map]
    exact normalize_fold_eq t _

/-- C1 (amended): a query whose normalized form has no word-character token
does not terminate early with a special message; the keyword stage is
skipped, but the fuzzy stage still runs, every candidate scores 0 there, and
(when the exact stage found nothing) the terminal fallback message is
returned.  A fixed could-not-understand message does not exist in the
code. -/
theorem c1_tokenless_reaches_fuzzy :
    ∀ (q : String) (df : List Row), df ≠ [] →
      wordTokens (normalize_query q synonym_dict) = [] →
      exactMatch? (normalize_query q synonym_dict) df = none →
      get_answer q df = some fallbackMsg := by
  intro q df hne htok hex
  have hkw : keywordMatch? (normalize_query q synonym_dict) df = none := by
    unfold keywordMatch?
    rw [htok]
    rfl
  rw [get_answer_fuzzy_eq hex hkw]
  cases df with
  | nil => exact absurd rfl hne
  | cons r0 df' =>
    have hfp : (fullProcess (normalize_query q synonym_dict)).data = [] :=
      fullProcess_data_nil _ htok
    unfold fuzzyStage
    have he : extractOne (normalize_query q synonym_dict)
        ((r0 :: df').map (fun r => r.question)) = some (r0.question, 0) :=
      extractOne_processed_nil _ hfp _ _
    rw [he]
    rfl

/-- C1 witness: the empty query on a one-row table. -/
theorem c1_witness :
    get_answer "" [(⟨"hello", "world"⟩ : Row)] = some fallbackMsg :=
  c1_tokenless_reaches_fuzzy "" [(⟨"hello", "world"⟩ : Row)] (by decide) (by decide) (by decide)

/-- C1 counterexample: the empty query has no tokens, yet get_answer
returns the terminal fallback message, not the could-not-understand message
the claim requires (no such message exists in the code). -/
theorem c1_counterexample :
    wordTokens (normalize_query "" synonym_dict) = [] ∧
    get_answer "" [(⟨"hi there", "hello"⟩ : Row)] = some fallbackMsg ∧
    get_answer "" [(⟨"hi there", "hello"⟩ : Row)] ≠
      some "I'm sorry, I couldn't understand your question. Please try rephrasing it." := by
  decide

/-- C2 (amended): on every non-empty table get_answer returns a string for
every query; on the zero-row table every query reaches the fuzzy stage,
where extractOne returns none and the unpacking in the code raises
(modelled by the none result). -/
theorem c2_no_raise_nonempty :
    (∀ (q : String) (df : List Row), df ≠ [] → (get_answer q df).isSome = true) ∧
    (∀ q : String, get_answer q [] = none) := by
  constructor
  · intro q df h
    rcases get_answer_cases q df h with ⟨s, hs, _⟩
    rw [hs]
    rfl
  · exact get_answer_nil

/-- C2 witness: a one-row table gives an answer; the empty table gives the
modelled raise. -/
theorem c2_witness :
    (get_answer "anything" [(⟨"q1", "a1"⟩ : Row)]).isSome = true ∧
    get_answer "anything" [] = none :=
  ⟨c2_no_raise_nonempty.1 "anything" [(⟨"q1", "a1"⟩ : Row)] (by decide),
   c2_no_raise_nonempty.2 "anything"⟩

/-- C2 counterexample: on the zero-row table the claimed terminal fallback
is not returned; the call fails instead (none models the Python TypeError
from unpacking the None returned by extractOne). -/
theorem c2_counterexample :
    get_answer "x" [] = none ∧ get_answer "x" [] ≠ some fallbackMsg := by
  decide

/-- C3 (amended): whenever the NORMALIZED query equals, case-insensitively,
some row's question verbatim, get_answer returns the first such row's
answer, before any fuzzy scoring can occur.  For the raw query the claim
fails, because synonym normalization is applied before the comparison. -/
theorem c3_exact_match_normalized :
    ∀ (q : String) (df : List Row) (r : Row),
      df.find? (fun row => llower row.question == llower (normalize_query q synonym_dict)) =
        some r →
      get_answer q df = some r.answer := by
  intro q df r h
  exact get_answer_of_exact h

/-- C3 witness: a mixed-case query whose normalized form matches a
mixed-case question. -/
theorem c3_witness :
    get_answer "whAt is AI" [(⟨"What is Artificial Intelligence", "ans"⟩ : Row)] = some "ans" :=
  c3_exact_match_normalized "whAt is AI" [(⟨"What is Artificial Intelligence", "ans"⟩ : Row)]
    (⟨"What is Artificial Intelligence", "ans"⟩ : Row) (by decide)

/-- C3 counterexample: the query ai equals the question AI
case-insensitively, but normalization rewrites the query to artificial
intelligence first, so the exact stage misses and the terminal fallback is
returned instead of the row's answer. -/
theorem c3_counterexample :
    llower "ai" = llower "AI" ∧
    get_answer "ai" [(⟨"AI", "answer1"⟩ : Row)] = some fallbackMsg ∧
    get_answer "ai" [(⟨"AI", "answer1"⟩ : Row)] ≠ some "answer1" := by
  decide

/-- C4: in the fuzzy stage (reached only when the exact and keyword stages
found nothing) the first highest-scoring candidate is selected, and the
corresponding row's answer is returned precisely when the best score is at
least 70, the terminal fallback otherwise; concretely, a best score of
exactly 70 returns the answer and a best score of 69 returns the terminal
fallback. -/
theorem c4_fuzzy_threshold :
    (∀ (q : String) (df : List Row) (bm : String) (sc : Nat),
      exactMatch? (normalize_query q synonym_dict) df = none →
      keywordMatch? (normalize_query q synonym_dict) df = none →
      extractOne (normalize_query q synonym_dict) (df.map (fun r => r.question)) =
        some (bm, sc) →
      ∃ r, df.find? (fun row => row.question == bm) = some r ∧
        get_answer q df = some (if 70 ≤ sc then r.answer else fallbackMsg)) ∧
    tokenSetScore "abcdefghij" "abcdefgxyz" = 70 ∧
    get_answer "abcdefghij" [(⟨"abcdefgxyz", "A70"⟩ : Row)] = some "A70" ∧
    tokenSetScore "abcdefghijklm" "abcdefghixxxx" = 69 ∧
    get_answer "abcdefghijklm" [(⟨"abcdefghixxxx", "A69"⟩ : Row)] = some fallbackMsg := by
  refine ⟨?_, by decide, by decide, by decide, by decide⟩
  intro q df bm sc hex hkw hfz
  cases df with
  | nil => cases hfz
  | cons r0 df' =>
    have hbm : bm ∈ (r0 :: df').map (fun r => r.question) := extractOne_mem hfz
    rcases find?_question_exists (r0 :: df') bm hbm with ⟨r, hr⟩
    refine ⟨r, hr, ?_⟩
    rw [get_answer_fuzzy_eq hex hkw]
    unfold fuzzyStage
    rw [hfz]
    have hv : (if 70 ≤ sc then
        Option.map (fun x => x.answer) ((r0 :: df').find? (fun x => x.question == bm))
        else some fallbackMsg) = some (if 70 ≤ sc then r.answer else fallbackMsg) := by
      by_cases h70 : 70 ≤ sc
      · rw [if_pos h70, if_pos h70, hr]
        rfl
      · rw [if_neg h70, if_neg h70]
    exact hv

/-- C4 witness: the score-70 boundary input. -/
theorem c4_witness :
    ∃ r, List.find? (fun row => row.question == "abcdefgxyz")
        [(⟨"abcdefgxyz", "A70"⟩ : Row)] = some r ∧
      get_answer "abcdefghij" [(⟨"abcdefgxyz", "A70"⟩ : Row)] =
        some (if 70 ≤ 70 then r.answer else fallbackMsg) :=
  c4_fuzzy_threshold.1 "abcdefghij" [(⟨"abcdefgxyz", "A70"⟩ : Row)] "abcdefgxyz" 70
    (by decide) (by decide) (by decide)

/-- C5: in the keyword stage the tokens are tried in stable
descending-length order (the sort is a permutation, descending in length,
and tokens of equal length keep their original relative order), the answer
of the first matching row for the first matching token is returned by
get_answer, and the occurrence test is whole-word and case-insensitive on
the raw question text. -/
theorem c5_keyword_stage :
    (∀ (q : String) (df : List Row) (a : String),
      exactMatch? (normalize_query q synonym_dict) df = none →
      keywordMatch? (normalize_query q synonym_dict) df = some a →
      get_answer q df = some a) ∧
    (∀ ts : List String,
      (sortLenDesc ts).Perm ts ∧
      List.Sorted (fun a b => b.length ≤ a.length) (sortLenDesc ts) ∧
      ∀ n, (sortLenDesc ts).filter (fun t => t.length == n) =
        ts.filter (fun t => t.length == n)) ∧
    wholeWord "cat" "the CAT sat." = true ∧
    wholeWord "cat" "concatenate" = false := by
  refine ⟨?_, ?_, by decide, by decide⟩
  · intro q df a hex hkw
    exact get_answer_of_keyword hex hkw
  · intro ts
    refine ⟨List.perm_insertionSort _ ts, ?_, sortLenDesc_filter ts⟩
    haveI : IsTotal String (fun a b => b.length ≤ a.length) :=
      ⟨fun a b => Nat.le_total b.length a.length⟩
    haveI : IsTrans String (fun a b => b.length ≤ a.length) :=
      ⟨fun _ _ _ hab hbc => Nat.le_trans hbc hab⟩
    exact List.sorted_insertionSort _ ts

/-- C5 witness: the longest token misses, the shorter token cats matches a
row question as a whole word. -/
theorem c5_witness :
    get_answer "likeable cats" [(⟨"Do you like cats", "I do"⟩ : Row)] = some "I do" :=
  c5_keyword_stage.1 "likeable cats" [(⟨"Do you like cats", "I do"⟩ : Row)] "I do"
    (by decide) (by decide)

/-- C6: normalize_query equals the spec-side formulation (lowercase, then
apply every (variant, canonical) substitution rule in table and list order
as plain substring replacement); the replacement has no word-boundary
check (the variant ai is rewritten inside the unrelated word air), and a
canonical term produced by one entry can be consumed by a later entry
(predictive analytics becomes machine learning, which the later ml entry
rewrites to ml). -/
theorem c6_normalize_algorithm :
    (∀ (q : String) (tbl : List (String × List String)),
      normalize_query q tbl = normalizeSpec q tbl) ∧
    normalize_query "air" synonym_dict = "artificial intelligencer" ∧
    normalize_query "predictive analytics" synonym_dict = "ml" := by
  refine ⟨?_, by decide, by decide⟩
  intro q tbl
  exact normalize_fold_eq tbl (llower q)

/-- C7 (amended): normalize_query is idempotent on the canonical terms of
the synonym table in the sense that a second normalization pass changes
nothing; but normalization does not fix every canonical term itself (the
claimed normalize c equals c fails, see the counterexample). -/
theorem c7_idempotent_on_normalized :
    ∀ c ∈ synonym_dict.map Prod.fst,
      normalize_query (normalize_query c synonym_dict) synonym_dict =
        normalize_query c synonym_dict := by
  decide

/-- C7 witness: the canonical term technology, whose normalized form is
already stable under a second pass. -/
theorem c7_witness :
    ("technology" ∈ synonym_dict.map Prod.fst) ∧
    normalize_query (normalize_query "technology" synonym_dict) synonym_dict =
      normalize_query "technology" synonym_dict :=
  ⟨by decide, c7_idempotent_on_normalized "technology" (by decide)⟩

/-- C7 counterexample: ai is a canonical term of the synonym table, yet
normalize_query rewrites it to artificial intelligence, so normalization is
not the identity on all-canonical queries. -/
theorem c7_counterexample :
    ("ai" ∈ synonym_dict.map Prod.fst) ∧
    normalize_query "ai" synonym_dict = "artificial intelligence" ∧
    normalize_query "ai" synonym_dict ≠ "ai" := by
  decide

/-- C8 (amended): get_answer depends on the query only through its
normalized form: two queries with equal normalizations resolve identically
on every table.  The original claim fails because replacing a variant by
its canonical term can CHANGE the normalized form (see the
counterexample). -/
theorem c8_resolve_depends_on_normalization :
    ∀ (q1 q2 : String) (df : List Row),
      normalize_query q1 synonym_dict = normalize_query q2 synonym_dict →
      get_answer q1 df = get_answer q2 df := by
  intro q1 q2 df h
  unfold get_answer
  rw [h]

/-- C8 witness: ml and machine learning normalize to the same string and
resolve identically. -/
theorem c8_witness :
    get_answer "ml" [(⟨"what is ml", "M"⟩ : Row)] =
      get_answer "machine learning" [(⟨"what is ml", "M"⟩ : Row)] :=
  c8_resolve_depends_on_normalization "ml" "machine learning"
    [(⟨"what is ml", "M"⟩ : Row)] (by decide)

/-- C8 counterexample: nn is a variant of the canonical term neural
network, and the table contains the canonical phrasing, yet the variant
query resolves to a row answer while the canonicalized query resolves to
the terminal fallback (its normalized form is the mangled string nnwork). -/
theorem c8_counterexample :
    (("neural network", ["neural net", "nn"]) ∈ synonym_dict) ∧
    hasSubstr "neural network" "i love neural network stuff" = true ∧
    get_answer "nn"
      [(⟨"nn", "A"⟩ : Row), (⟨"i love neural network stuff", "B"⟩ : Row)] = some "A" ∧
    get_answer "neural network"
      [(⟨"nn", "A"⟩ : Row), (⟨"i love neural network stuff", "B"⟩ : Row)] =
      some fallbackMsg := by
  decide

/-- C9: on every non-empty table get_answer is total: it returns some
string, and that string is either the terminal fallback message or the
answer of some row of the table (in particular a token-less query still
proceeds to the fuzzy stage rather than failing). -/
theorem c9_total_nonempty :
    ∀ (q : String) (df : List Row), df ≠ [] →
      ∃ s, get_answer q df = some s ∧
        (s = fallbackMsg ∨ ∃ r, r ∈ df ∧ s = r.answer) := by
  intro q df h
  exact get_answer_cases q df h

/-- C9 witness: the empty query on a one-row table. -/
theorem c9_witness :
    ∃ s, get_answer "" [(⟨"a", "b"⟩ : Row)] = some s ∧
      (s = fallbackMsg ∨ ∃ r, r ∈ [(⟨"a", "b"⟩ : Row)] ∧ s = r.answer) :=
  c9_total_nonempty "" [(⟨"a", "b"⟩ : Row)] (by decide)

/-- C10: when the fuzzy stage accepts (best score at least 70), the
returned answer is that of the first row in table order whose question
equals the best-matching question string; with duplicated question texts
the earliest duplicate's answer is returned. -/
theorem c10_fuzzy_first_duplicate :
    ∀ (q : String) (df : List Row) (bm : String) (sc : Nat) (r : Row),
      exactMatch? (normalize_query q synonym_dict) df = none →
      keywordMatch? (normalize_query q synonym_dict) df = none →
      extractOne (normalize_query q synonym_dict) (df.map (fun x => x.question)) =
        some (bm, sc) →
      70 ≤ sc →
      df.find? (fun row => row.question == bm) = some r →
      get_answer q df = some r.answer := by
  intro q df bm sc r hex hkw hfz h70 hr
  rw [get_answer_fuzzy_eq hex hkw]
  unfold fuzzyStage
  rw [hfz]
  have hv : (if 70 ≤ sc then
      Option.map (fun x => x.answer) (df.find? (fun x => x.question == bm))
      else some fallbackMsg) = some r.answer := by
    rw [if_pos h70, hr]
    rfl
  exact hv

/-- C10 witness: two rows with identical question text; the first row's
answer is returned by the fuzzy stage. -/
theorem c10_witness :
    get_answer "abcdefghij"
      [(⟨"abcdefgxyz", "first"⟩ : Row), (⟨"abcdefgxyz", "second"⟩ : Row)] = some "first" :=
  c10_fuzzy_first_duplicate "abcdefghij"
    [(⟨"abcdefgxyz", "first"⟩ : Row), (⟨"abcdefgxyz", "second"⟩ : Row)]
    "abcdefgxyz" 70 (⟨"abcdefgxyz", "first"⟩ : Row)
    (by decide) (by decide) (by decide) (by decide) (by decide)

end Claims

end Chatbot
